import Mathlib

/-!
# fw: a command-line front-end for `netsh advfirewall`

A shallow embedding of `main.go`.

* Go strings that are scanned character by character (the scraped text of
  `SimpleListRules`) are lists of Unicode code points (`Str`); the model covers
  valid UTF-8 text.
* Command-line arguments, messages and the arguments passed to `netsh` are `String`s.
* The external utility is a function from an argument list to a result; a run of the
  program is a pure function returning what was printed, which invocations were made
  (in order) and how the process ended.
-/

namespace Fw

/-! ## Text primitives -/

/-- A Go string seen as its sequence of code points. -/
abbrev Str := List Char

/-- Go `unicode.IsSpace`: the code points with the Unicode White_Space property. -/
def isSpace (c : Char) : Bool :=
  let n := c.toNat
  (9 ≤ n && n ≤ 13) || n == 0x20 || n == 0x85 || n == 0xA0 || n == 0x1680 ||
  (0x2000 ≤ n && n ≤ 0x200A) || n == 0x2028 || n == 0x2029 || n == 0x202F ||
  n == 0x205F || n == 0x3000

/-- The regexp class `\s` of Go (RE2): tab, newline, form feed, carriage return, space. -/
def reSpace (c : Char) : Bool :=
  let n := c.toNat
  n == 9 || n == 10 || n == 12 || n == 13 || n == 32

/-- The regexp class `\d` of Go (RE2): the ASCII digits. -/
def reDigit (c : Char) : Bool :=
  let n := c.toNat
  48 ≤ n && n ≤ 57

/-- Under the flag `(?i)` the literal pattern character `p` matches `c`.  The literals of
the three patterns are ASCII letters other than `k` and `s`, a space and a colon, whose
Unicode simple-folding orbit is the letter in its two ASCII cases. -/
def foldMatch (p c : Char) : Bool :=
  c == p || c == p.toLower || c == p.toUpper

/-- Match the literal `pat` case-insensitively at the start of `s`; the rest of `s`. -/
def stripPrefixFold : Str → Str → Option Str
  | [], s => some s
  | _ :: _, [] => none
  | p :: ps, c :: cs => if foldMatch p c then stripPrefixFold ps cs else none

/-- Go `strings.TrimSpace`. -/
def trimSpace (s : Str) : Str :=
  ((s.dropWhile isSpace).reverse.dropWhile isSpace).reverse

/-- Go `strings.Split(s, "\n")`. -/
def splitLines : Str → List Str
  | [] => [[]]
  | c :: cs =>
    if c = '\n' then [] :: splitLines cs
    else match splitLines cs with
      | [] => [[c]]
      | l :: ls => (c :: l) :: ls

/-! ## The three patterns of `SimpleListRules`

`FindStringSubmatch` returns `nil` when the pattern does not match and otherwise the
slice `[whole match, group 1]`, so `len(matches) == 2` holds exactly when the pattern
matches; the model returns group 1 in that case. -/

/-- Pattern `(?i)^Rule Name:\s*(.*)`: the group is what follows the skipped `\s` run,
up to a newline (`.` does not match `\n`). -/
def reName (line : Str) : Option Str :=
  match stripPrefixFold "Rule Name:".toList line with
  | none => none
  | some rest => some ((rest.dropWhile reSpace).takeWhile (fun c => c != '\n'))

/-- Pattern `(?i)^LocalPort:\s*(\d+)`: the group is the longest run of digits after
the skipped `\s` run, and the pattern fails when that run is empty. -/
def rePort (line : Str) : Option Str :=
  match stripPrefixFold "LocalPort:".toList line with
  | none => none
  | some rest =>
    let digits := (rest.dropWhile reSpace).takeWhile reDigit
    if digits = [] then none else some digits

/-- Pattern `(?i)^Direction:\s*(In|Out)`: the group is the two or three characters
that spell `In` or `Out` in any letter case. -/
def reDirection (line : Str) : Option Str :=
  match stripPrefixFold "Direction:".toList line with
  | none => none
  | some rest =>
    let r := rest.dropWhile reSpace
    match stripPrefixFold "In".toList r with
    | some _ => some (r.take 2)
    | none =>
      match stripPrefixFold "Out".toList r with
      | some _ => some (r.take 3)
      | none => none

/-! ## The scraper loop -/

/-- A rule record. -/
structure Rule where
  name : Str
  port : Str
  direction : Str
  deriving DecidableEq, Repr

/-- The variables of the loop of `SimpleListRules` and the records written so far. -/
structure Scan where
  name : Str
  port : Str
  direction : Str
  emitted : List Rule
  deriving DecidableEq, Repr

/-- One iteration of `for _, line := range lines` in `SimpleListRules`. -/
def scanLine (st : Scan) (raw : Str) : Scan :=
  let line := trimSpace raw
  let st := match reName line with
    | some m => { st with name := m }
    | none => st
  let st := match rePort line with
    | some m => { st with port := m }
    | none => st
  match reDirection line with
  | some m =>
    let st := { st with direction := m }
    { name := [], port := [], direction := [],
      emitted := st.emitted ++ [⟨st.name, st.port, st.direction⟩] }
  | none => st

/-- The whole loop, from `var name, port, direction string`. -/
def scanLines (lines : List Str) : Scan :=
  lines.foldl scanLine ⟨[], [], [], []⟩

/-- The records emitted by the loop of `SimpleListRules` on the text `output`. -/
def scrape (output : Str) : List Rule :=
  (scanLines (splitLines output)).emitted

/-- Closed form of the loop on lines that are already trimmed: the records emitted when the
loop is entered with the variables `name` and `port`. -/
def collect (name port : Str) : List Str → List Rule
  | [] => []
  | line :: rest =>
    let name1 := (reName line).getD name
    let port1 := (rePort line).getD port
    match reDirection line with
    | some d => ⟨name1, port1, d⟩ :: collect [] [] rest
    | none => collect name1 port1 rest

/-- Lines joined by a newline (Go `strings.Join(lines, "\n")`). -/
def joinLines : List Str → Str
  | [] => []
  | [l] => l
  | l :: l1 :: ls => l ++ '\n' :: joinLines (l1 :: ls)

/-- A line that, after whitespace trimming, matches none of the three patterns. -/
def Unmatched (line : Str) : Prop :=
  reName (trimSpace line) = none ∧ rePort (trimSpace line) = none ∧
    reDirection (trimSpace line) = none

instance (line : Str) : Decidable (Unmatched line) := by
  unfold Unmatched
  infer_instance

/-- The positions of the lines matching the direction pattern, counted from `i`. -/
def directionIdxs (i : Nat) : List Str → List Nat
  | [] => []
  | l :: ls =>
    if (reDirection l).isSome then i :: directionIdxs (i + 1) ls else directionIdxs (i + 1) ls

/-- The lines at the positions `lo ≤ i < hi`. -/
def between (lines : List Str) (lo hi : Nat) : List Str :=
  (lines.drop lo).take (hi - lo)

/-- The capture of the last line among `lines` that matches `re`, or the empty string. -/
def lastCapture (re : Str → Option Str) (lines : List Str) : Str :=
  ((lines.filterMap re).getLast?).getD []

/-- The record for a direction line at position `d` whose predecessor direction line, if
any, is just before position `lo`: name and port come from the lines `lo ≤ i < d`. -/
def recordOf (lines : List Str) (lo d : Nat) : Rule :=
  { name := lastCapture reName (between lines lo d),
    port := lastCapture rePort (between lines lo d),
    direction := (reDirection (lines.getD d [])).getD [] }

/-- The `k`-th record (from 0) for the trimmed lines `lines` whose direction lines are at
the positions `ds`: none when there are not that many direction lines. -/
def recordAt (lines : List Str) (ds : List Nat) (k : Nat) : Option Rule :=
  match ds.get? k with
  | none => none
  | some d => some (recordOf lines (if k = 0 then 0 else ds.getD (k - 1) 0 + 1) d)

/-- The records for the direction lines at the positions `ds`, the first window starting
at `lo`. -/
def recordsFrom (lines : List Str) (lo : Nat) : List Nat → List Rule
  | [] => []
  | d :: ds => recordOf lines lo d :: recordsFrom lines (d + 1) ds

/-! ### Listings of well-formed triples -/

/-- The spellings of `In` and `Out` in any letter case. -/
def directionSpellings : List Str :=
  ["in", "In", "iN", "IN",
   "out", "Out", "oUt", "ouT", "OUt", "OuT", "oUT", "OUT"].map String.toList

/-- A well-formed triple: the name has no line break and no leading or trailing
whitespace (in the sense of `unicode.IsSpace`, the one `strings.TrimSpace` uses), the port
is a non-empty string of decimal digits, the direction spells `In` or `Out`. -/
structure WellFormed (t : Rule) : Prop where
  name_one_line : '\n' ∉ t.name
  name_no_leading : ∀ c, t.name.head? = some c → isSpace c = false
  name_no_trailing : ∀ c, t.name.getLast? = some c → isSpace c = false
  port_nonempty : t.port ≠ []
  port_digits : ∀ c ∈ t.port, c.isDigit = true
  direction_in_out : t.direction ∈ directionSpellings

/-- The whitespace written before and after each of the three lines of a listed rule. -/
structure Pads where
  nameBefore : Str
  nameAfter : Str
  portBefore : Str
  portAfter : Str
  dirBefore : Str
  dirAfter : Str

/-- Without any indentation or trailing whitespace. -/
def Pads.none : Pads := ⟨[], [], [], [], [], []⟩

/-- Every pad is whitespace that stays on the line. -/
def Pads.Blank (p : Pads) : Prop :=
  ∀ s ∈ [p.nameBefore, p.nameAfter, p.portBefore, p.portAfter, p.dirBefore, p.dirAfter],
    ∀ c ∈ s, isSpace c = true ∧ c ≠ '\n'

instance (p : Pads) : Decidable p.Blank := by
  unfold Pads.Blank
  infer_instance

/-- The line `Rule Name: <name>`, indented and followed by whitespace. -/
def nameLine (t : Rule) (p : Pads) : Str :=
  p.nameBefore ++ ("Rule Name: ".toList ++ t.name) ++ p.nameAfter

/-- The line `LocalPort: <port>`, indented and followed by whitespace. -/
def portLine (t : Rule) (p : Pads) : Str :=
  p.portBefore ++ ("LocalPort: ".toList ++ t.port) ++ p.portAfter

/-- The line `Direction: <direction>`, indented and followed by whitespace. -/
def dirLine (t : Rule) (p : Pads) : Str :=
  p.dirBefore ++ ("Direction: ".toList ++ t.direction) ++ p.dirAfter

/-- The text that lists, for each triple in order, its three lines, joined by newlines. -/
def listing (ts : List (Rule × Pads)) : Str :=
  joinLines (ts.map fun tp => [nameLine tp.1 tp.2, portLine tp.1 tp.2, dirLine tp.1 tp.2]).flatten

/-- A block of text for one rule: it begins with the rule-name line and contains the
local-port line and the direction line, in the order given by `portFirst`, among other
lines. -/
structure Block where
  rule : Rule
  pads : Pads
  portFirst : Bool
  other1 : List Str
  other2 : List Str
  other3 : List Str

/-- The lines of a block. -/
def Block.lines (b : Block) : List Str :=
  nameLine b.rule b.pads :: (b.other1 ++
    ((if b.portFirst then
        portLine b.rule b.pads :: (b.other2 ++ [dirLine b.rule b.pads])
      else
        dirLine b.rule b.pads :: (b.other2 ++ [portLine b.rule b.pads])) ++ b.other3))

/-- The triple of a block is well formed, its pads are blank and its other lines are
lines that match none of the three patterns. -/
def Block.Ok (b : Block) : Prop :=
  WellFormed b.rule ∧ b.pads.Blank ∧
    ∀ l ∈ b.other1 ++ b.other2 ++ b.other3, '\n' ∉ l ∧ Unmatched l

/-- The text made of the blocks in order, lines joined by newlines. -/
def blocksText (bs : List Block) : Str :=
  joinLines (bs.map Block.lines).flatten

/-- A block without other lines and with its local-port line after its direction line. -/
def blockDirFirst : Block :=
  { rule := ⟨"Web".toList, "80".toList, "In".toList⟩, pads := Pads.none, portFirst := false,
    other1 := [], other2 := [], other3 := [] }

/-- A second block with its local-port line after its direction line. -/
def blockMailDirFirst : Block :=
  { rule := ⟨"Mail".toList, "25".toList, "Out".toList⟩, pads := Pads.none, portFirst := false,
    other1 := [], other2 := [], other3 := [] }

/-- Two triples with their pads: the first indented and ending in a carriage return, the
second written flush. -/
def sampleTriples : List (Rule × Pads) :=
  [(⟨"Web Server".toList, "80".toList, "In".toList⟩,
    ⟨"  ".toList, "\r".toList, "\t".toList, " \r".toList, "  ".toList, "\r".toList⟩),
   (⟨"dns".toList, "53".toList, "OUT".toList⟩, Pads.none)]

/-- A block with other lines around its three lines, the local-port line first. -/
def blockPortFirst : Block :=
  { rule := ⟨"Web".toList, "80".toList, "In".toList⟩, pads := Pads.none, portFirst := true,
    other1 := ["----------------------".toList, "Enabled: Yes".toList],
    other2 := ["RemotePort: Any".toList],
    other3 := ["Action: Allow".toList, [], "Ok.".toList] }

/-! ### Well-formed records -/

/-- The value written after `LocalPort:` on a trimmed line: what follows the colon, the
whitespace before it skipped. -/
def portValue (line : Str) : Option Str :=
  (stripPrefixFold "LocalPort:".toList line).map (fun rest => rest.dropWhile isSpace)

/-- The port of a record is empty, or a non-empty string of digits that is the complete
value of a `LocalPort:` line of the text. -/
def PortIsWholeValue (output : Str) (r : Rule) : Prop :=
  r.port = [] ∨
    (r.port ≠ [] ∧ (∀ c ∈ r.port, c.isDigit = true) ∧
      ∃ l ∈ splitLines output, portValue (trimSpace l) = some r.port)

/-- The port of a record is empty, or a non-empty string of digits that is the longest run
of digits at the start of the value of a `LocalPort:` line of the text. -/
def PortIsLeadingDigits (output : Str) (r : Rule) : Prop :=
  r.port = [] ∨
    (r.port ≠ [] ∧ (∀ c ∈ r.port, c.isDigit = true) ∧
      ∃ l ∈ splitLines output, ∃ v, portValue (trimSpace l) = some v ∧
        r.port = v.takeWhile Char.isDigit)

instance (output : Str) (r : Rule) : Decidable (PortIsWholeValue output r) := by
  unfold PortIsWholeValue
  infer_instance

/-- The text `fmt.Fprintf(w, "%s\t%s\t%s\t\n", port, direction, name)` writes for a record. -/
def formatRow (r : Rule) : String :=
  String.mk r.port ++ "\t" ++ String.mk r.direction ++ "\t" ++ String.mk r.name ++ "\t\n"

/-- The header line `SimpleListRules` writes first (the Go literal
`"Port\tDirection\\Rule Name\t"` followed by the newline of `Fprintln`). -/
def tableHeader : String := "Port\tDirection\\Rule Name\t\n"

/-- The separator line, `strings.Repeat("-", 50)` followed by the newline of `Fprintln`. -/
def tableSeparator : String := String.mk (List.replicate 50 '-') ++ "\n"

/-- The terminated cells of the first line of a written text, as `text/tabwriter`
delimits them: a cell ends at each tab or vertical tab, the line ends at a newline or a
form feed, and what follows the last terminator of the line is not a terminated cell. -/
def cellsAux : Str → Str → List Str
  | _, [] => []
  | cur, c :: cs =>
    if c = '\t' ∨ c = '\x0b' then cur.reverse :: cellsAux [] cs
    else if c = '\n' ∨ c = '\x0c' then []
    else cellsAux (c :: cur) cs

/-- The terminated cells of a written line. -/
def cells (line : String) : List String :=
  (cellsAux [] line.toList).map String.mk

/-! ## The process model -/

/-- What one invocation of the external utility yields: its combined output, and in
case of failure the error of `cmd.CombinedOutput()`. -/
inductive CmdResult where
  | ok (output : String)
  | fail (err : String) (output : String)
  deriving DecidableEq, Repr

/-- The environment of a run: the external utility `netsh`, a function of its argument
list, and the library function `strings.Title`. -/
structure Env where
  netsh : List String → CmdResult
  title : String → String

/-- How a process stops before the end of `main`. -/
inductive Halt where
  /-- The call `os.Exit(code)`. -/
  | exit (code : Nat)
  /-- The call `log.Fatalf`: the message is logged and the process exits with status 1. -/
  | fatal (msg : String)
  /-- A run-time panic on an index out of range. -/
  | indexPanic
  deriving DecidableEq, Repr

/-- The observable effects of a run so far. -/
structure World where
  /-- The texts written to standard output by `fmt.Println` and `fmt.Printf`. -/
  stdout : List String
  /-- The texts written to the tabwriter of `SimpleListRules`. -/
  table : List String
  /-- The argument lists `netsh` was invoked with, in order. -/
  calls : List (List String)
  deriving DecidableEq, Repr

/-- The result of running a piece of the program from a world. -/
inductive Step (α : Type) where
  | cont (a : α) (w : World)
  | halt (h : Halt) (w : World)

/-- A piece of the program. -/
def Prog (α : Type) : Type := World → Step α

/-- Sequencing: what follows a halt does not run. -/
def Prog.bind {α β : Type} (p : Prog α) (f : α → Prog β) : Prog β := fun w =>
  match p w with
  | .cont a w1 => f a w1
  | .halt h w1 => .halt h w1

instance : Monad Prog where
  pure a := fun w => .cont a w
  bind := Prog.bind

/-- Write a text to standard output. -/
def print (s : String) : Prog Unit := fun w =>
  .cont () { w with stdout := w.stdout ++ [s] }

/-- Write a text to the tabwriter. -/
def fprint (s : String) : Prog Unit := fun w =>
  .cont () { w with table := w.table ++ [s] }

/-- Stop the process. -/
def halt {α : Type} (h : Halt) : Prog α := fun w => .halt h w

/-- The element `xs[i]` of a Go slice, which panics out of range. -/
def index (xs : List String) (i : Nat) : Prog String :=
  match xs.get? i with
  | some x => pure x
  | none => halt .indexPanic

/-- How a run ended. -/
inductive Outcome where
  | normal
  | halted (h : Halt)
  deriving DecidableEq, Repr

/-- A complete run: its effects and how it ended. -/
structure Run where
  stdout : List String
  table : List String
  calls : List (List String)
  outcome : Outcome
  deriving DecidableEq, Repr

/-- Run a program from the start of the process. -/
def run (p : Prog Unit) : Run :=
  match p ⟨[], [], []⟩ with
  | .cont _ w => ⟨w.stdout, w.table, w.calls, .normal⟩
  | .halt h w => ⟨w.stdout, w.table, w.calls, .halted h⟩

/-! ## The functions of `main.go` -/

/-- The function `RunNetshCommand`: one invocation of `netsh`, returning its output or the
error `fmt.Errorf("command error: %w - %s", err, string(output))`. -/
def RunNetshCommand (env : Env) (args : List String) : Prog (Except String String) := fun w =>
  let w1 := { w with calls := w.calls ++ [args] }
  match env.netsh args with
  | .fail err output => .cont (.error ("command error: " ++ err ++ " - " ++ output)) w1
  | .ok output => .cont (.ok output) w1

/-- The function `EnableFirewall`. -/
def EnableFirewall (env : Env) : Prog Unit := do
  print "Enabling firewall...\n"
  let r ← RunNetshCommand env ["advfirewall", "set", "allprofiles", "state", "on"]
  match r with
  | .error err => halt (.fatal ("Error enabling firewall: " ++ err))
  | .ok _ => print "Firewall enabled.\n"

/-- The function `DisableFirewall`. -/
def DisableFirewall (env : Env) : Prog Unit := do
  print "Disabling firewall...\n"
  let r ← RunNetshCommand env ["advfirewall", "set", "allprofiles", "state", "off"]
  match r with
  | .error err => halt (.fatal ("Error disabling firewall: " ++ err))
  | .ok _ => print "Firewall disabled.\n"

/-- The function `AllowPort`. -/
def AllowPort (env : Env) (port : String) (direction : String) : Prog Unit := do
  let direction := if direction = "" then "in" else direction
  print ("Allowing " ++ direction ++ "bound traffic on port " ++ port ++ "...\n")
  let r ← RunNetshCommand env ["advfirewall", "firewall", "add", "rule",
    "name=AllowInboundPort" ++ port, "protocol=TCP", "dir=" ++ direction, "action=allow",
    "localport=" ++ port]
  match r with
  | .error err => halt (.fatal ("Error allowing port " ++ port ++ ": " ++ err))
  | .ok _ => print (env.title direction ++ "bound traffic allowed on port " ++ port ++ ".\n")

/-- The function `DenyPort`. -/
def DenyPort (env : Env) (port : String) (direction : String) : Prog Unit := do
  let direction := if direction = "" then "in" else direction
  print ("Denying " ++ direction ++ "bound traffic on port " ++ port ++ "...\n")
  let r ← RunNetshCommand env ["advfirewall", "firewall", "add", "rule",
    "name=DenyInboundPort" ++ port, "protocol=TCP", "dir=" ++ direction, "action=block",
    "localport=" ++ port]
  match r with
  | .error err => halt (.fatal ("Error denying port " ++ port ++ ": " ++ err))
  | .ok _ => print (env.title direction ++ "bound traffic denied on port " ++ port ++ ".\n")

/-- The function `DeletePortRule`: the result of the second invocation is discarded
(`_, _ = RunNetshCommand(...)`), and the error of the first is tested after it. -/
def DeletePortRule (env : Env) (port : String) : Prog Unit := do
  print ("Deleting rule for port " ++ port ++ "...\n")
  let r ← RunNetshCommand env ["advfirewall", "firewall", "delete", "rule",
    "name=AllowInboundPort" ++ port]
  let _ ← RunNetshCommand env ["advfirewall", "firewall", "delete", "rule",
    "name=DenyInboundPort" ++ port]
  match r with
  | .error err => halt (.fatal ("Error deleting rule for port " ++ port ++ ": " ++ err))
  | .ok _ => print ("Rule for port " ++ port ++ " deleted.\n")

/-- Write each text of a list to the tabwriter, in order. -/
def fprintAll : List String → Prog Unit
  | [] => pure ()
  | s :: ss => do fprint s; fprintAll ss

/-- The function `SimpleListRules`: the loop writes one row per emitted record, in the order
of emission; `w.Flush()` adds nothing to what was written. -/
def SimpleListRules (env : Env) : Prog Unit := do
  fprint tableHeader
  fprint tableSeparator
  let r ← RunNetshCommand env ["advfirewall", "firewall", "show", "rule", "name=all"]
  match r with
  | .error err => halt (.fatal ("Error listing firewall rules: " ++ err))
  | .ok output => fprintAll ((scrape output.toList).map formatRow)

/-- The function `FirewallStatus`. -/
def FirewallStatus (env : Env) : Prog Unit := do
  print "Firewall status:\n"
  let r ← RunNetshCommand env ["advfirewall", "show", "allprofiles"]
  match r with
  | .error err => halt (.fatal ("Error showing firewall status: " ++ err))
  | .ok output => print (output ++ "\n")

/-- The lines `Usage` prints. -/
def usageText : List String :=
  ["Usage:\n",
   "  fw enable                 - Enable the firewall\n",
   "  fw disable                - Disable the firewall\n",
   "  fw allow <port> [in|out]  - Allow traffic on a port (default: in)\n",
   "  fw deny <port> [in|out]   - Deny traffic on a port (default: in)\n",
   "  fw delete <port>          - Delete the rule for a port\n",
   "  fw status                 - Show the current firewall status and rules\n",
   "  fw list                   - List rules (Program Name | Port | Direction)\n"]

/-- Write each text of a list to standard output, in order. -/
def printAll : List String → Prog Unit
  | [] => pure ()
  | s :: ss => do print s; printAll ss

/-- The function `Usage`: print the help and `os.Exit(1)`; it never returns. -/
def Usage : Prog Unit := do
  printAll usageText
  halt (.exit 1)

/-- The function `main`, on the argument vector `os.Args`. -/
def main (env : Env) (osArgs : List String) : Prog Unit := do
  if osArgs.length < 2 then Usage
  let verb ← index osArgs 1
  if verb = "enable" then EnableFirewall env
  else if verb = "disable" then DisableFirewall env
  else if verb = "allow" then do
    if osArgs.length < 3 || osArgs.length > 4 then Usage
    let mut direction := "in"
    if osArgs.length = 4 then
      direction ← index osArgs 3
    let port ← index osArgs 2
    AllowPort env port direction
  else if verb = "deny" then do
    if osArgs.length < 3 || osArgs.length > 4 then Usage
    let mut direction := "in"
    if osArgs.length = 4 then
      direction ← index osArgs 3
    let port ← index osArgs 2
    DenyPort env port direction
  else if verb = "delete" then do
    if osArgs.length != 3 then Usage
    let port ← index osArgs 2
    DeletePortRule env port
  else if verb = "status" then FirewallStatus env
  else if verb = "list" then SimpleListRules env
  else Usage

/-- The run in which only `Usage` acted: the help on standard output, exit status 1, and
no invocation of the external utility. -/
def usageRun : Run :=
  { stdout := usageText, table := [], calls := [], outcome := .halted (.exit 1) }

/-- An environment in which every invocation succeeds with empty output. -/
def envOk : Env := { netsh := fun _ => .ok "", title := id }

/-- An environment in which every invocation fails. -/
def envFail : Env := { netsh := fun _ => .fail "exit status 1" "", title := id }

/-- The seven verbs of the dispatcher. -/
def verbs : List String :=
  ["enable", "disable", "allow", "deny", "delete", "status", "list"]

/-- The numbers of arguments after the verb that the help text documents for each verb:
none for `enable`, `disable`, `status` and `list`, one or two for `allow` and `deny`,
exactly one for `delete`. -/
def documentedArgCount (verb : String) (n : Nat) : Bool :=
  if verb = "enable" ∨ verb = "disable" ∨ verb = "status" ∨ verb = "list" then n == 0
  else if verb = "allow" ∨ verb = "deny" then n == 1 || n == 2
  else if verb = "delete" then n == 1
  else false

/-- An invocation failed. -/
def CmdResult.failed : CmdResult → Bool
  | .ok _ => false
  | .fail _ _ => true

/-- A run ended in the fatal state, with some logged message. -/
def Run.fatal (r : Run) : Prop := ∃ msg, r.outcome = .halted (.fatal msg)

/-- The fail-fast discipline of a run against the utility of `env`: an invocation that
fails is the last one made and the run ends in the fatal state, and a run that ends
normally made only invocations that succeeded. -/
def FailFast (env : Env) (r : Run) : Prop :=
  (∀ pre c post, r.calls = pre ++ c :: post → (env.netsh c).failed = true →
      r.fatal ∧ post = []) ∧
  (r.outcome = .normal → ∀ c ∈ r.calls, (env.netsh c).failed = false)

/-- An action makes exactly one invocation and is fail-fast. -/
def SingleCallFailFast (env : Env) (p : Prog Unit) : Prop :=
  (run p).calls.length = 1 ∧ FailFast env (run p)

/-- An environment in which deleting the rule `DenyInboundPort80` fails and every other
invocation succeeds. -/
def envNoDenyRule : Env :=
  { netsh := fun args =>
      if args = ["advfirewall", "firewall", "delete", "rule", "name=DenyInboundPort80"] then
        .fail "exit status 1" "No rules match the specified criteria.\n"
      else .ok "Ok.\n",
    title := id }

/-- An environment in which the utility lists one rule. -/
def envOneRule : Env :=
  { netsh := fun _ => .ok "Rule Name: Web\nLocalPort: 80\nDirection: In\n", title := id }

/-! ## The dispatcher -/

theorem printAll_apply (ss : List String) (w : World) :
    printAll ss w = .cont () { w with stdout := w.stdout ++ ss } := by
  induction ss generalizing w with
  | nil => simp [printAll, pure]
  | cons s ss ih =>
    simp [printAll, bind, Prog.bind, print, ih]

theorem Usage_apply (w : World) :
    Usage w = .halt (.exit 1) { w with stdout := w.stdout ++ usageText } := by
  simp [Usage, bind, Prog.bind, printAll_apply, halt]

theorem pure_bind_prog {α β : Type} (a : α) (f : α → Prog β) : (pure a >>= f) = f a := rfl

theorem halt_bind_prog {α β : Type} (h : Halt) (f : α → Prog β) : (halt h >>= f) = halt h := rfl

theorem bind_apply {α β : Type} (p : Prog α) (f : α → Prog β) (w : World) :
    (p >>= f) w = match p w with
      | .cont a w1 => f a w1
      | .halt h w1 => .halt h w1 := rfl

theorem Usage_bind (f : Unit → Prog Unit) : (Usage >>= f) = Usage := by
  funext w
  simp [bind_apply, Usage_apply]

theorem run_Usage : run Usage = usageRun := by
  simp [run, Usage_apply, usageRun]

theorem index_zero (a : String) (l : List String) : index (a :: l) 0 = pure a := rfl

theorem index_succ (a : String) (l : List String) (i : Nat) :
    index (a :: l) (i + 1) = index l i := rfl

/-- C2: an argument vector with no verb, or with a verb that is none of the seven, makes
`main` print the usage text and exit with status 1 without invoking the utility. -/
theorem main_usage_of_no_or_unknown_verb (env : Env) (osArgs : List String)
    (h : osArgs.length < 2 ∨ ∃ v, osArgs.get? 1 = some v ∧ v ∉ verbs) :
    run (main env osArgs) = usageRun := by
  rcases h with h | ⟨v, hv, hn⟩
  · unfold main
    rw [if_pos h, Usage_bind]
    exact run_Usage
  · match osArgs, hv with
    | a :: b :: rest, hv =>
      simp at hv
      subst hv
      simp [verbs] at hn
      obtain ⟨h1, h2, h3, h4, h5, h6, h7⟩ := hn
      have hlen : ¬ (a :: b :: rest).length < 2 := by simp
      unfold main
      simp only [hlen, if_false, pure_bind_prog, index_succ, index_zero, h1, h2, h3, h4, h5, h6,
        h7]
      exact run_Usage

theorem main_usage_of_no_or_unknown_verb_witness :
    (["fw", "reload", "80"].length < 2 ∨
        ∃ v, ["fw", "reload", "80"].get? 1 = some v ∧ v ∉ verbs) ∧
      run (main envFail ["fw", "reload", "80"]) = usageRun :=
  ⟨Or.inr ⟨"reload", rfl, by decide⟩,
   main_usage_of_no_or_unknown_verb envFail ["fw", "reload", "80"]
     (Or.inr ⟨"reload", rfl, by decide⟩)⟩

theorem main_no_arg_verb (env : Env) (prog verb : String) (rest : List String)
    (hv : verb = "enable" ∨ verb = "disable" ∨ verb = "status" ∨ verb = "list") :
    main env (prog :: verb :: rest) = main env [prog, verb] := by
  have hlen : ¬ (prog :: verb :: rest).length < 2 := by simp
  have hlen2 : ¬ [prog, verb].length < 2 := by simp
  rcases hv with hv | hv | hv | hv <;> subst hv <;> unfold main <;>
    simp only [hlen, hlen2, if_false, pure_bind_prog, index_succ, index_zero, if_true] <;> rfl

/-- For `allow` and `deny` with fewer than one or more than two arguments after the verb,
and for `delete` with a number of arguments other than one, `main` prints the usage text
and exits with status 1 without invoking the utility. -/
theorem main_usage_of_operand_count (env : Env) (prog verb : String) (rest : List String)
    (h : ((verb = "allow" ∨ verb = "deny") ∧ (rest.length < 1 ∨ 2 < rest.length)) ∨
        (verb = "delete" ∧ rest.length ≠ 1)) :
    run (main env (prog :: verb :: rest)) = usageRun := by
  have hlen : ¬ (prog :: verb :: rest).length < 2 := by simp
  rcases h with ⟨hv | hv, hn⟩ | ⟨hv, hn⟩
  · subst hv
    have hc : ((prog :: "allow" :: rest).length < 3 || (prog :: "allow" :: rest).length > 4)
        = true := by
      simp only [List.length_cons, Bool.or_eq_true, decide_eq_true_eq]; omega
    unfold main
    simp only [hlen, if_false, pure_bind_prog, index_succ, index_zero, hc, if_true, Usage_bind]
    exact run_Usage
  · subst hv
    have hc : ((prog :: "deny" :: rest).length < 3 || (prog :: "deny" :: rest).length > 4)
        = true := by
      simp only [List.length_cons, Bool.or_eq_true, decide_eq_true_eq]; omega
    unfold main
    simp only [hlen, if_false, pure_bind_prog, index_succ, index_zero, hc, if_true, Usage_bind]
    exact run_Usage
  · subst hv
    have hc : ((prog :: "delete" :: rest).length != 3) = true := by
      simp only [List.length_cons, bne_iff_ne]; omega
    unfold main
    simp only [hlen, if_false, pure_bind_prog, index_succ, index_zero, hc, if_true, Usage_bind]
    exact run_Usage

/-- C3, evaluated on the code: whatever follows the verb, `main` runs the action of
`enable`, `disable`, `status` and `list`; so `fw disable 80`, which has one argument after
a verb documented with none, invokes the utility to turn the firewall off and ends
normally instead of printing the usage text and exiting with status 1, and the claim as
stated fails. -/
theorem no_operand_verbs_run_action (env : Env) (prog : String) (rest : List String) :
    main env (prog :: "enable" :: rest) = EnableFirewall env ∧
    main env (prog :: "disable" :: rest) = DisableFirewall env ∧
    main env (prog :: "status" :: rest) = FirewallStatus env ∧
    main env (prog :: "list" :: rest) = SimpleListRules env ∧
    documentedArgCount "disable" ["80"].length = false ∧
    run (main envOk ["fw", "disable", "80"]) =
      { stdout := ["Disabling firewall...\n", "Firewall disabled.\n"], table := [],
        calls := [["advfirewall", "set", "allprofiles", "state", "off"]],
        outcome := .normal } ∧
    ¬ ∀ (env : Env) (prog verb : String) (rest : List String), verb ∈ verbs →
        documentedArgCount verb rest.length = false →
        run (main env (prog :: verb :: rest)) = usageRun := by
  have he : main env [prog, "enable"] = EnableFirewall env := by
    unfold main
    simp [pure_bind_prog, index_succ, index_zero]
  have hd : main env [prog, "disable"] = DisableFirewall env := by
    unfold main
    simp [pure_bind_prog, index_succ, index_zero]
  have hs : main env [prog, "status"] = FirewallStatus env := by
    unfold main
    simp [pure_bind_prog, index_succ, index_zero]
  have hl : main env [prog, "list"] = SimpleListRules env := by
    unfold main
    simp [pure_bind_prog, index_succ, index_zero]
  refine ⟨?_, ?_, ?_, ?_, by decide, by decide, ?_⟩
  · rw [main_no_arg_verb env prog "enable" rest (Or.inl rfl), he]
  · rw [main_no_arg_verb env prog "disable" rest (Or.inr (Or.inl rfl)), hd]
  · rw [main_no_arg_verb env prog "status" rest (Or.inr (Or.inr (Or.inl rfl))), hs]
  · rw [main_no_arg_verb env prog "list" rest (Or.inr (Or.inr (Or.inr rfl))), hl]
  · intro h
    have h1 := h envOk "fw" "disable" ["80"] (by decide) (by decide)
    revert h1
    decide

/-! ## The default direction -/

/-- The argument list `AllowPort` passes to the utility. -/
theorem AllowPort_calls (env : Env) (port direction : String) :
    (run (AllowPort env port direction)).calls =
      [["advfirewall", "firewall", "add", "rule", "name=AllowInboundPort" ++ port,
        "protocol=TCP", "dir=" ++ (if direction = "" then "in" else direction), "action=allow",
        "localport=" ++ port]] := by
  unfold AllowPort run
  simp only [bind_apply, print, RunNetshCommand]
  cases env.netsh _ <;> simp [halt, print]

/-- The argument list `DenyPort` passes to the utility. -/
theorem DenyPort_calls (env : Env) (port direction : String) :
    (run (DenyPort env port direction)).calls =
      [["advfirewall", "firewall", "add", "rule", "name=DenyInboundPort" ++ port,
        "protocol=TCP", "dir=" ++ (if direction = "" then "in" else direction), "action=block",
        "localport=" ++ port]] := by
  unfold DenyPort run
  simp only [bind_apply, print, RunNetshCommand]
  cases env.netsh _ <;> simp [halt, print]

theorem main_allow_one (env : Env) (prog p : String) :
    main env [prog, "allow", p] = AllowPort env p "in" := by
  unfold main
  simp [pure_bind_prog, index_succ, index_zero]

theorem main_allow_two (env : Env) (prog p d : String) :
    main env [prog, "allow", p, d] = AllowPort env p d := by
  unfold main
  simp [pure_bind_prog, index_succ, index_zero]

theorem main_deny_one (env : Env) (prog p : String) :
    main env [prog, "deny", p] = DenyPort env p "in" := by
  unfold main
  simp [pure_bind_prog, index_succ, index_zero]

theorem main_deny_two (env : Env) (prog p d : String) :
    main env [prog, "deny", p, d] = DenyPort env p d := by
  unfold main
  simp [pure_bind_prog, index_succ, index_zero]

/-- C4: with the direction omitted, `allow p` and `deny p` make the same run, and issue the
same single command containing `dir=in`, as `allow p in` and `deny p in`; and `AllowPort`
and `DenyPort` called with the empty direction behave as with the direction `in`. -/
theorem default_direction_in (env : Env) (prog p : String) :
    run (main env [prog, "allow", p]) = run (main env [prog, "allow", p, "in"]) ∧
    (run (main env [prog, "allow", p])).calls =
      [["advfirewall", "firewall", "add", "rule", "name=AllowInboundPort" ++ p,
        "protocol=TCP", "dir=in", "action=allow", "localport=" ++ p]] ∧
    run (main env [prog, "deny", p]) = run (main env [prog, "deny", p, "in"]) ∧
    (run (main env [prog, "deny", p])).calls =
      [["advfirewall", "firewall", "add", "rule", "name=DenyInboundPort" ++ p,
        "protocol=TCP", "dir=in", "action=block", "localport=" ++ p]] ∧
    run (AllowPort env p "") = run (AllowPort env p "in") ∧
    run (DenyPort env p "") = run (DenyPort env p "in") := by
  refine ⟨?_, ?_, ?_, ?_, ?_, ?_⟩
  · rw [main_allow_one, main_allow_two]
  · rw [main_allow_one, AllowPort_calls]; rfl
  · rw [main_deny_one, main_deny_two]
  · rw [main_deny_one, DenyPort_calls]; rfl
  · rfl
  · rfl

/-! ## Failures of the external utility -/

theorem fprintAll_apply (ss : List String) (w : World) :
    fprintAll ss w = .cont () { w with table := w.table ++ ss } := by
  induction ss generalizing w with
  | nil => simp [fprintAll, pure]
  | cons s ss ih =>
    simp [fprintAll, bind, Prog.bind, fprint, ih]

theorem failFast_of_single (env : Env) (r : Run) (c : List String)
    (h : r.calls = [c] ∧ ((env.netsh c).failed = true → r.fatal) ∧
      (r.outcome = .normal → (env.netsh c).failed = false)) :
    r.calls.length = 1 ∧ FailFast env r := by
  obtain ⟨hc, hf, hn⟩ := h
  refine ⟨by rw [hc]; rfl, ?_, ?_⟩
  · intro pre c1 post hsplit hfail
    rw [hc] at hsplit
    cases pre with
    | nil =>
      simp only [List.nil_append, List.cons.injEq] at hsplit
      obtain ⟨h1, h2⟩ := hsplit
      subst h1
      exact ⟨hf hfail, h2.symm⟩
    | cons x pre => simp at hsplit
  · intro hnorm c1 hmem
    rw [hc] at hmem
    simp only [List.mem_singleton] at hmem
    subst hmem
    exact hn hnorm

theorem EnableFirewall_single (env : Env) : SingleCallFailFast env (EnableFirewall env) := by
  apply failFast_of_single env _ ["advfirewall", "set", "allprofiles", "state", "on"]
  unfold EnableFirewall run Run.fatal
  simp only [bind_apply, print, RunNetshCommand]
  cases env.netsh _ <;> simp [halt, print, CmdResult.failed]

theorem DisableFirewall_single (env : Env) : SingleCallFailFast env (DisableFirewall env) := by
  apply failFast_of_single env _ ["advfirewall", "set", "allprofiles", "state", "off"]
  unfold DisableFirewall run Run.fatal
  simp only [bind_apply, print, RunNetshCommand]
  cases env.netsh _ <;> simp [halt, print, CmdResult.failed]

theorem AllowPort_single (env : Env) (port direction : String) :
    SingleCallFailFast env (AllowPort env port direction) := by
  apply failFast_of_single env _ ["advfirewall", "firewall", "add", "rule",
    "name=AllowInboundPort" ++ port, "protocol=TCP",
    "dir=" ++ (if direction = "" then "in" else direction), "action=allow", "localport=" ++ port]
  unfold AllowPort run Run.fatal
  simp only [bind_apply, print, RunNetshCommand]
  cases env.netsh _ <;> simp [halt, print, CmdResult.failed]

theorem DenyPort_single (env : Env) (port direction : String) :
    SingleCallFailFast env (DenyPort env port direction) := by
  apply failFast_of_single env _ ["advfirewall", "firewall", "add", "rule",
    "name=DenyInboundPort" ++ port, "protocol=TCP",
    "dir=" ++ (if direction = "" then "in" else direction), "action=block", "localport=" ++ port]
  unfold DenyPort run Run.fatal
  simp only [bind_apply, print, RunNetshCommand]
  cases env.netsh _ <;> simp [halt, print, CmdResult.failed]

theorem FirewallStatus_single (env : Env) : SingleCallFailFast env (FirewallStatus env) := by
  apply failFast_of_single env _ ["advfirewall", "show", "allprofiles"]
  unfold FirewallStatus run Run.fatal
  simp only [bind_apply, print, RunNetshCommand]
  cases env.netsh _ <;> simp [halt, print, CmdResult.failed]

theorem SimpleListRules_single (env : Env) : SingleCallFailFast env (SimpleListRules env) := by
  apply failFast_of_single env _ ["advfirewall", "firewall", "show", "rule", "name=all"]
  unfold SimpleListRules run Run.fatal
  simp only [bind_apply, fprint, RunNetshCommand]
  cases env.netsh _ <;> simp [halt, fprintAll_apply, CmdResult.failed]

/-- C5, amended: `enable`, `disable`, `allow`, `deny`, `status` and `list` make exactly one
invocation and are fail-fast (the run is fatal when the invocation fails and ends normally
only when it succeeded); `delete` always makes its two invocations, the deletion of the
allow rule and then the deletion of the deny rule, whatever the first returns, and its run
is fatal exactly when the first fails and ends normally exactly when the first succeeds,
the result of the second being discarded. -/
theorem actions_fail_fast (env : Env) (port direction : String) :
    SingleCallFailFast env (EnableFirewall env) ∧
    SingleCallFailFast env (DisableFirewall env) ∧
    SingleCallFailFast env (AllowPort env port direction) ∧
    SingleCallFailFast env (DenyPort env port direction) ∧
    SingleCallFailFast env (FirewallStatus env) ∧
    SingleCallFailFast env (SimpleListRules env) ∧
    (run (DeletePortRule env port)).calls =
      [["advfirewall", "firewall", "delete", "rule", "name=AllowInboundPort" ++ port],
       ["advfirewall", "firewall", "delete", "rule", "name=DenyInboundPort" ++ port]] ∧
    ((run (DeletePortRule env port)).fatal ↔
      (env.netsh ["advfirewall", "firewall", "delete", "rule",
        "name=AllowInboundPort" ++ port]).failed = true) ∧
    ((run (DeletePortRule env port)).outcome = .normal ↔
      (env.netsh ["advfirewall", "firewall", "delete", "rule",
        "name=AllowInboundPort" ++ port]).failed = false) := by
  refine ⟨EnableFirewall_single env, DisableFirewall_single env,
    AllowPort_single env port direction, DenyPort_single env port direction,
    FirewallStatus_single env, SimpleListRules_single env, ?_, ?_, ?_⟩ <;>
  · unfold DeletePortRule run
    simp only [Run.fatal, bind_apply, print, RunNetshCommand]
    cases env.netsh ["advfirewall", "firewall", "delete", "rule",
        "name=AllowInboundPort" ++ port] <;>
      cases env.netsh ["advfirewall", "firewall", "delete", "rule",
        "name=DenyInboundPort" ++ port] <;>
      simp [halt, print, CmdResult.failed]

/-- C5 as stated fails on `delete`: when only the deletion of the deny rule fails, the
run of `DeletePortRule` ends normally although an invocation it made failed. -/
theorem delete_not_fail_fast :
    ¬ ∀ (env : Env) (port : String), FailFast env (run (DeletePortRule env port)) := by
  intro h
  obtain ⟨_, h2⟩ := h envNoDenyRule "80"
  have h3 := h2 (by decide)
    ["advfirewall", "firewall", "delete", "rule", "name=DenyInboundPort80"] (by decide)
  revert h3
  decide

/-! ## The table -/

/-- C10, evaluated on `fw list` when the utility lists one rule: the header written by
`SimpleListRules` has the two tab-terminated cells `Port` and `Direction\Rule Name`, and
the data row has the three cells port, direction, name. -/
theorem table_header_cells :
    cells tableHeader = ["Port", "Direction\\Rule Name"] ∧
    (run (main envOneRule ["fw", "list"])).table =
      [tableHeader, tableSeparator, "80\tIn\tWeb\t\n"] ∧
    (run (main envOneRule ["fw", "list"])).table.map (fun l => (cells l).length) = [2, 0, 3] ∧
    cells "80\tIn\tWeb\t\n" = ["80", "In", "Web"] := by
  decide

/-! ## The scraper: lines -/

theorem splitLines_ne_nil (s : Str) : splitLines s ≠ [] := by
  induction s with
  | nil => simp [splitLines]
  | cons c cs ih =>
    unfold splitLines
    split
    · simp
    · split <;> simp

theorem splitLines_cons_of_ne (c : Char) (cs : Str) (hc : c ≠ '\n') :
    splitLines (c :: cs) = (c :: (splitLines cs).headD []) :: (splitLines cs).tail := by
  have hne := splitLines_ne_nil cs
  rw [splitLines, if_neg hc]
  cases h : splitLines cs with
  | nil => exact absurd h hne
  | cons l ls => rfl

theorem splitLines_append (a b : Str) :
    splitLines (a ++ '\n' :: b) = splitLines a ++ splitLines b := by
  induction a with
  | nil => simp [splitLines]
  | cons c cs ih =>
    have hne := splitLines_ne_nil cs
    by_cases hc : c = '\n'
    · simp [splitLines, hc, ih]
    · rw [List.cons_append, splitLines_cons_of_ne _ _ hc, splitLines_cons_of_ne _ _ hc, ih]
      cases h : splitLines cs with
      | nil => exact absurd h hne
      | cons l ls => rfl

theorem splitLines_of_not_mem (l : Str) (h : '\n' ∉ l) : splitLines l = [l] := by
  induction l with
  | nil => rfl
  | cons c cs ih =>
    simp only [List.mem_cons, not_or] at h
    have hc : c ≠ '\n' := fun e => h.1 e.symm
    simp [splitLines, hc, ih h.2]

theorem splitLines_joinLines (ls : List Str) (hne : ls ≠ []) (h : ∀ l ∈ ls, '\n' ∉ l) :
    splitLines (joinLines ls) = ls := by
  induction ls with
  | nil => exact absurd rfl hne
  | cons l ls ih =>
    cases ls with
    | nil => simpa [joinLines] using splitLines_of_not_mem l (h l (by simp))
    | cons l1 ls =>
      rw [joinLines, splitLines_append, splitLines_of_not_mem l (h l (by simp)),
        ih (by simp) (fun x hx => h x (List.mem_cons_of_mem _ hx))]
      rfl

/-! ## The scraper: the loop and its closed form -/

theorem foldl_scanLine_emitted (lines : List Str) (st : Scan) :
    (lines.foldl scanLine st).emitted
      = st.emitted ++ collect st.name st.port (lines.map trimSpace) := by
  induction lines generalizing st with
  | nil => simp [collect]
  | cons raw rest ih =>
    rw [List.foldl_cons, ih]
    simp only [List.map_cons, collect, scanLine]
    cases reName (trimSpace raw) <;> cases rePort (trimSpace raw) <;>
      cases reDirection (trimSpace raw) <;> simp [collect]

theorem scrape_eq_collect (output : Str) :
    scrape output = collect [] [] ((splitLines output).map trimSpace) := by
  simp [scrape, scanLines, foldl_scanLine_emitted]

theorem scanLine_unmatched (st : Scan) (l : Str) (h : Unmatched l) : scanLine st l = st := by
  obtain ⟨h1, h2, h3⟩ := h
  simp [scanLine, h1, h2, h3]

/-- C6: a line that after trimming matches none of the three patterns can be inserted
between two lines of the text, before its first line or after its last line (or removed
from there) without changing the records the loop emits. -/
theorem scrape_insert_unmatched (a b l : Str) (hl : '\n' ∉ l) (hu : Unmatched l) :
    scrape (a ++ '\n' :: (l ++ '\n' :: b)) = scrape (a ++ '\n' :: b) ∧
    scrape (l ++ '\n' :: b) = scrape b ∧
    scrape (a ++ '\n' :: l) = scrape a := by
  refine ⟨?_, ?_, ?_⟩
  · simp only [scrape, scanLines, splitLines_append, splitLines_of_not_mem l hl,
      List.foldl_append, List.foldl_cons, List.foldl_nil, scanLine_unmatched _ l hu]
  · simp only [scrape, scanLines, splitLines_append, splitLines_of_not_mem l hl,
      List.foldl_append, List.foldl_cons, List.foldl_nil, scanLine_unmatched _ l hu]
  · simp only [scrape, scanLines, splitLines_append, splitLines_of_not_mem l hl,
      List.foldl_append, List.foldl_cons, List.foldl_nil, scanLine_unmatched _ l hu]

theorem scrape_insert_unmatched_witness :
    ('\n' ∉ "  Enabled: Yes \r".toList ∧ Unmatched "  Enabled: Yes \r".toList) ∧
    (scrape ("Rule Name: Web\r".toList ++ '\n' ::
        ("  Enabled: Yes \r".toList ++ '\n' :: "Direction: In\r".toList))
      = scrape ("Rule Name: Web\r".toList ++ '\n' :: "Direction: In\r".toList) ∧
     scrape ("  Enabled: Yes \r".toList ++ '\n' :: "Direction: In\r".toList)
      = scrape "Direction: In\r".toList ∧
     scrape ("Rule Name: Web\r".toList ++ '\n' :: "  Enabled: Yes \r".toList)
      = scrape "Rule Name: Web\r".toList) :=
  ⟨⟨by decide, by decide⟩,
   scrape_insert_unmatched "Rule Name: Web\r".toList "Direction: In\r".toList
     "  Enabled: Yes \r".toList (by decide) ⟨by decide, by decide, by decide⟩⟩

/-! ## The scraper: which lines feed which record -/

theorem foldMatch_iff (p c : Char) :
    foldMatch p c = true ↔ c = p ∨ c = p.toLower ∨ c = p.toUpper := by
  simp [foldMatch, or_assoc]

theorem name_port_none_of_direction (l d : Str) (h : reDirection l = some d) :
    reName l = none ∧ rePort l = none := by
  cases l with
  | nil =>
    have h0 : reDirection [] = none := rfl
    rw [h0] at h
    exact absurd h (by simp)
  | cons c cs =>
    by_cases hD : foldMatch 'D' c = true
    · rw [foldMatch_iff] at hD
      rcases hD with rfl | rfl | rfl <;> exact ⟨rfl, rfl⟩
    · have : reDirection (c :: cs) = none := by
        simp [reDirection, stripPrefixFold, hD]
      rw [this] at h
      exact absurd h (by simp)

theorem lastCapture_nil (re : Str → Option Str) : lastCapture re [] = [] := rfl

theorem lastCapture_concat (re : Str → Option Str) (W : List Str) (l : Str) :
    lastCapture re (W ++ [l]) = (re l).getD (lastCapture re W) := by
  unfold lastCapture
  rw [List.filterMap_append]
  cases h : re l with
  | none => simp [List.filterMap, h]
  | some a => simp [List.filterMap, h]

theorem between_window (pre W S : List Str) :
    between (pre ++ W ++ S) pre.length (pre.length + W.length) = W := by
  simp [between, List.append_assoc]

theorem getD_window (pre W S : List Str) (l : Str) :
    (pre ++ W ++ l :: S).getD (pre.length + W.length) [] = l := by
  have h : pre.length + W.length = (pre ++ W).length := by simp
  rw [h, List.getD_eq_getElem?_getD, List.getElem?_append_right (le_refl _)]
  simp

theorem collect_eq_recordsFrom (S pre W : List Str) :
    collect (lastCapture reName W) (lastCapture rePort W) S
      = recordsFrom (pre ++ W ++ S) pre.length (directionIdxs (pre.length + W.length) S) := by
  induction S generalizing pre W with
  | nil => simp [collect, directionIdxs, recordsFrom]
  | cons l S ih =>
    cases hd : reDirection l with
    | none =>
      have e := ih pre (W ++ [l])
      rw [lastCapture_concat, lastCapture_concat] at e
      simp only [collect, hd, directionIdxs, Option.isSome_none, Bool.false_eq_true, if_false]
      rw [e]
      simp [List.append_assoc, Nat.add_assoc]
    | some d =>
      obtain ⟨hn, hp⟩ := name_port_none_of_direction l d hd
      have e := ih (pre ++ W ++ [l]) []
      simp only [lastCapture_nil] at e
      simp only [collect, hd, hn, hp, directionIdxs, Option.isSome_some, if_true, recordsFrom,
        Option.getD_none]
      rw [e]
      simp only [recordOf]
      rw [between_window pre W (l :: S), getD_window pre W S l, hd]
      simp [List.append_assoc, Nat.add_assoc]

theorem recordsFrom_length (lines : List Str) (lo : Nat) (ds : List Nat) :
    (recordsFrom lines lo ds).length = ds.length := by
  induction ds generalizing lo with
  | nil => rfl
  | cons d ds ih => simp [recordsFrom, ih]

theorem recordsFrom_get? (lines : List Str) (lo : Nat) (ds : List Nat) (k : Nat) :
    (recordsFrom lines lo ds).get? k =
      match ds.get? k with
      | none => none
      | some d => some (recordOf lines (if k = 0 then lo else ds.getD (k - 1) 0 + 1) d) := by
  induction ds generalizing lo k with
  | nil => simp [recordsFrom]
  | cons d ds ih =>
    cases k with
    | zero => simp [recordsFrom]
    | succ k =>
      simp only [recordsFrom, List.get?_cons_succ, ih]
      cases k with
      | zero => simp
      | succ k => simp

theorem mem_directionIdxs (lines : List Str) (i j : Nat) :
    j ∈ directionIdxs i lines ↔
      ∃ k l, lines.get? k = some l ∧ (reDirection l).isSome = true ∧ j = i + k := by
  induction lines generalizing i with
  | nil => simp [directionIdxs]
  | cons l ls ih =>
    have step : (∃ k l1, (l :: ls).get? k = some l1 ∧ (reDirection l1).isSome = true ∧ j = i + k)
        ↔ ((reDirection l).isSome = true ∧ j = i) ∨
          ∃ k l1, ls.get? k = some l1 ∧ (reDirection l1).isSome = true ∧ j = i + 1 + k := by
      constructor
      · rintro ⟨k, l1, h1, h2, h3⟩
        cases k with
        | zero =>
          simp only [List.get?_cons_zero, Option.some.injEq] at h1
          subst h1
          exact Or.inl ⟨h2, by omega⟩
        | succ k =>
          exact Or.inr ⟨k, l1, by simpa using h1, h2, by omega⟩
      · rintro (⟨h2, h3⟩ | ⟨k, l1, h1, h2, h3⟩)
        · exact ⟨0, l, rfl, h2, by omega⟩
        · exact ⟨k + 1, l1, by simpa using h1, h2, by omega⟩
    rw [step, ← ih (i + 1)]
    cases h : (reDirection l).isSome <;> simp [directionIdxs, h]

theorem directionIdxs_increasing (lines : List Str) (i : Nat) :
    (directionIdxs i lines).Pairwise (fun a b => a < b) := by
  induction lines generalizing i with
  | nil => simp [directionIdxs]
  | cons l ls ih =>
    cases h : (reDirection l).isSome
    · simpa [directionIdxs, h] using ih (i + 1)
    · simp only [directionIdxs, h, if_true, List.pairwise_cons]
      refine ⟨fun j hj => ?_, ih (i + 1)⟩
      rw [mem_directionIdxs] at hj
      obtain ⟨k, l1, _, _, h3⟩ := hj
      omega

theorem directionIdxs_length (i : Nat) (lines : List Str) :
    (directionIdxs i lines).length = lines.countP (fun l => (reDirection l).isSome) := by
  induction lines generalizing i with
  | nil => rfl
  | cons l ls ih =>
    cases h : (reDirection l).isSome <;> simp [directionIdxs, h, ih]

/-- C7: the loop emits one record per line matching the direction pattern, and the `k`-th
record takes its name and port from the last rule-name line and the last local-port line
strictly between the previous direction line and the `k`-th one (the empty string when
there is none) and its direction from the `k`-th direction line. -/
theorem scrape_records (output : Str) :
    (scrape output).length
      = ((splitLines output).map trimSpace).countP (fun l => (reDirection l).isSome) ∧
    ∀ k, (scrape output).get? k
      = recordAt ((splitLines output).map trimSpace)
          (directionIdxs 0 ((splitLines output).map trimSpace)) k := by
  have e := collect_eq_recordsFrom ((splitLines output).map trimSpace) [] []
  simp only [lastCapture_nil, List.nil_append, List.length_nil, Nat.add_zero] at e
  rw [scrape_eq_collect, e]
  refine ⟨by rw [recordsFrom_length, directionIdxs_length], fun k => ?_⟩
  rw [recordsFrom_get?]
  rfl

/-! ## The scraper: well-formed records -/

theorem reSpace_isSpace (c : Char) (h : reSpace c = true) : isSpace c = true := by
  simp only [reSpace, Bool.or_eq_true, beq_iff_eq] at h
  simp only [isSpace, Bool.or_eq_true, Bool.and_eq_true, decide_eq_true_eq, beq_iff_eq]
  omega

theorem isDigit_eq (c : Char) : c.isDigit = reDigit c := by
  simp [Char.isDigit, reDigit, Char.toNat, UInt32.le_def, BitVec.le_def, UInt32.toNat]

theorem reDigit_not_isSpace (c : Char) (h : reDigit c = true) : isSpace c = false := by
  simp only [reDigit, Bool.and_eq_true, decide_eq_true_eq] at h
  cases hs : isSpace c with
  | false => rfl
  | true =>
    simp only [isSpace, Bool.or_eq_true, Bool.and_eq_true, decide_eq_true_eq, beq_iff_eq] at hs
    omega

theorem dropWhile_isSpace_eq (rest : Str)
    (h : (rest.dropWhile reSpace).takeWhile reDigit ≠ []) :
    rest.dropWhile isSpace = rest.dropWhile reSpace := by
  induction rest with
  | nil => rfl
  | cons c cs ih =>
    by_cases hc : reSpace c = true
    · rw [List.dropWhile_cons_of_pos hc] at h ⊢
      rw [List.dropWhile_cons_of_pos (reSpace_isSpace c hc)]
      exact ih h
    · rw [List.dropWhile_cons_of_neg hc] at h ⊢
      have hd : reDigit c = true := by
        by_contra hd
        exact h (List.takeWhile_cons_of_neg hd)
      have hs : ¬ isSpace c = true := by simp [reDigit_not_isSpace c hd]
      rw [List.dropWhile_cons_of_neg hs]

theorem rePort_some (t d : Str) (h : rePort t = some d) :
    d ≠ [] ∧ (∀ c ∈ d, c.isDigit = true) ∧
      ∃ v, portValue t = some v ∧ d = v.takeWhile Char.isDigit := by
  unfold rePort at h
  split at h
  · exact absurd h (by simp)
  · rename_i rest hs
    by_cases he : (rest.dropWhile reSpace).takeWhile reDigit = []
    · rw [if_pos he] at h
      exact absurd h (by simp)
    · rw [if_neg he] at h
      simp only [Option.some.injEq] at h
      subst h
      refine ⟨he, ?_, rest.dropWhile isSpace, by rw [portValue, hs]; rfl, ?_⟩
      · intro c hc
        rw [isDigit_eq]
        exact (List.mem_takeWhile_imp hc)
      · have e : Char.isDigit = reDigit := funext isDigit_eq
        rw [e, dropWhile_isSpace_eq rest he]

theorem stripPrefixFold_two (p1 p2 : Char) (r x : Str)
    (h : stripPrefixFold [p1, p2] r = some x) :
    ∃ c1 c2, r = c1 :: c2 :: x ∧ foldMatch p1 c1 = true ∧ foldMatch p2 c2 = true := by
  match r, h with
  | [c1], h => simp [stripPrefixFold] at h
  | c1 :: c2 :: tl, h =>
    simp only [stripPrefixFold] at h
    by_cases h1 : foldMatch p1 c1 = true
    · by_cases h2 : foldMatch p2 c2 = true
      · simp only [h1, h2, if_true, Option.some.injEq] at h
        exact ⟨c1, c2, by rw [h], h1, h2⟩
      · simp [h1, h2] at h
    · simp [h1] at h

theorem stripPrefixFold_three (p1 p2 p3 : Char) (r x : Str)
    (h : stripPrefixFold [p1, p2, p3] r = some x) :
    ∃ c1 c2 c3, r = c1 :: c2 :: c3 :: x ∧ foldMatch p1 c1 = true ∧ foldMatch p2 c2 = true ∧
      foldMatch p3 c3 = true := by
  match r, h with
  | [c1], h => simp [stripPrefixFold] at h
  | [c1, c2], h => simp [stripPrefixFold] at h
  | c1 :: c2 :: c3 :: tl, h =>
    simp only [stripPrefixFold] at h
    by_cases h1 : foldMatch p1 c1 = true
    · by_cases h2 : foldMatch p2 c2 = true
      · by_cases h3 : foldMatch p3 c3 = true
        · simp only [h1, h2, h3, if_true, Option.some.injEq] at h
          exact ⟨c1, c2, c3, by rw [h], h1, h2, h3⟩
        · simp [h1, h2, h3] at h
      · simp [h1, h2] at h
    · simp [h1] at h

theorem reDirection_some (t d : Str) (h : reDirection t = some d) :
    d ∈ directionSpellings := by
  unfold reDirection at h
  split at h
  · exact absurd h (by simp)
  · rename_i rest hs
    simp only at h
    split at h
    · rename_i x hI
      simp only [Option.some.injEq] at h
      obtain ⟨c1, c2, hr, h1, h2⟩ := stripPrefixFold_two 'I' 'n' _ x hI
      rw [hr] at h
      rw [foldMatch_iff] at h1 h2
      subst h
      rcases h1 with rfl | rfl | rfl <;> rcases h2 with rfl | rfl | rfl <;>
        (show [_, _] ∈ directionSpellings) <;> decide
    · split at h
      · rename_i x hO
        simp only [Option.some.injEq] at h
        obtain ⟨c1, c2, c3, hr, h1, h2, h3⟩ := stripPrefixFold_three 'O' 'u' 't' _ x hO
        rw [hr] at h
        rw [foldMatch_iff] at h1 h2 h3
        subst h
        rcases h1 with rfl | rfl | rfl <;> rcases h2 with rfl | rfl | rfl <;>
          rcases h3 with rfl | rfl | rfl <;> (show [_, _, _] ∈ directionSpellings) <;> decide
      · exact absurd h (by simp)

theorem collect_mem (lines : List Str) (n p : Str) (r : Rule) (h : r ∈ collect n p lines) :
    (r.port = p ∨ r.port = [] ∨ ∃ l ∈ lines, rePort l = some r.port) ∧
      ∃ l ∈ lines, reDirection l = some r.direction := by
  induction lines generalizing n p with
  | nil => simp [collect] at h
  | cons l ls ih =>
    simp only [collect] at h
    cases hd : reDirection l with
    | none =>
      simp only [hd] at h
      obtain ⟨h1, l1, hl1, h2⟩ := ih _ _ h
      refine ⟨?_, l1, List.mem_cons_of_mem _ hl1, h2⟩
      rcases h1 with h1 | h1 | ⟨l2, hl2, h3⟩
      · cases hp : rePort l with
        | none => left; simpa [hp] using h1
        | some x =>
          right; right
          exact ⟨l, by simp, by rw [hp, h1]; simp [hp]⟩
      · exact Or.inr (Or.inl h1)
      · exact Or.inr (Or.inr ⟨l2, List.mem_cons_of_mem _ hl2, h3⟩)
    | some d =>
      simp only [hd, List.mem_cons] at h
      rcases h with h | h
      · subst h
        refine ⟨?_, l, by simp, hd⟩
        cases hp : rePort l with
        | none => left; simp
        | some x => right; right; exact ⟨l, by simp, by simp [hp]⟩
      · obtain ⟨h1, l1, hl1, h2⟩ := ih _ _ h
        refine ⟨?_, l1, List.mem_cons_of_mem _ hl1, h2⟩
        rcases h1 with h1 | h1 | ⟨l2, hl2, h3⟩
        · exact Or.inr (Or.inl h1)
        · exact Or.inr (Or.inl h1)
        · exact Or.inr (Or.inr ⟨l2, List.mem_cons_of_mem _ hl2, h3⟩)

/-- C9 as stated fails: on the line `LocalPort: 80,443` the loop records the port `80`,
which is not the complete value of any `LocalPort:` line of the text. -/
theorem scrape_whole_value_fails : ¬ ∀ output : Str, ∀ r ∈ scrape output,
      r.direction ∈ directionSpellings ∧ PortIsWholeValue output r := by
  intro h
  have h1 := (h "LocalPort: 80,443\nDirection: In".toList
    ⟨[], "80".toList, "In".toList⟩ (by decide)).2
  revert h1
  decide

/-- C9, amended: every emitted record has a direction that spells `In` or `Out` in some
letter case, and a port that is empty or a non-empty string of decimal digits, the longest
run of digits at the start of the value written after `LocalPort:` on a line of the text. -/
theorem scrape_well_formed (output : Str) (r : Rule) (h : r ∈ scrape output) :
    r.direction ∈ directionSpellings ∧ PortIsLeadingDigits output r := by
  rw [scrape_eq_collect] at h
  obtain ⟨h1, l1, hl1, h2⟩ := collect_mem _ _ _ r h
  refine ⟨reDirection_some _ _ h2, ?_⟩
  rcases h1 with h1 | h1 | ⟨l2, hl2, h3⟩
  · exact Or.inl h1
  · exact Or.inl h1
  · obtain ⟨hne, hdig, v, hv, hpv⟩ := rePort_some _ _ h3
    rw [List.mem_map] at hl2
    obtain ⟨raw, hraw, rfl⟩ := hl2
    exact Or.inr ⟨hne, hdig, raw, hraw, v, hv, hpv⟩

theorem scrape_well_formed_witness :
    (⟨[], "80".toList, "In".toList⟩ : Rule) ∈ scrape "LocalPort: 80,443\nDirection: In".toList ∧
    ((⟨[], "80".toList, "In".toList⟩ : Rule).direction ∈ directionSpellings ∧
      PortIsLeadingDigits "LocalPort: 80,443\nDirection: In".toList
        ⟨[], "80".toList, "In".toList⟩) :=
  ⟨by decide,
   scrape_well_formed "LocalPort: 80,443\nDirection: In".toList ⟨[], "80".toList, "In".toList⟩
     (by decide)⟩

/-! ## The scraper: listings and blocks -/

theorem dropWhile_of_head {p : Char → Bool} (l : Str)
    (h : ∀ c, l.head? = some c → p c = false) : l.dropWhile p = l := by
  cases l with
  | nil => rfl
  | cons c cs =>
    have hc : ¬ p c = true := by simp [h c rfl]
    exact List.dropWhile_cons_of_neg hc

theorem dropWhile_of_all {p : Char → Bool} (l : Str) (h : ∀ c ∈ l, p c = true) :
    l.dropWhile p = [] := by
  induction l with
  | nil => rfl
  | cons c cs ih =>
    rw [List.dropWhile_cons_of_pos (h c (by simp))]
    exact ih (fun x hx => h x (List.mem_cons_of_mem _ hx))

theorem trimSpace_pad (p0 body p1 : Str) (h0 : ∀ c ∈ p0, isSpace c = true)
    (h1 : ∀ c ∈ p1, isSpace c = true)
    (hh : ∀ c, body.head? = some c → isSpace c = false)
    (hl : ∀ c, body.getLast? = some c → isSpace c = false) :
    trimSpace (p0 ++ body ++ p1) = body := by
  unfold trimSpace
  rw [List.append_assoc, List.dropWhile_append_of_pos h0]
  cases body with
  | nil =>
    rw [List.nil_append, dropWhile_of_all p1 h1]
    rfl
  | cons b bs =>
    have e1 : ((b :: bs) ++ p1).dropWhile isSpace = (b :: bs) ++ p1 :=
      dropWhile_of_head _ (fun c hc => hh c (by simpa using hc))
    rw [e1, List.reverse_append,
      List.dropWhile_append_of_pos (fun c hc => h1 c (List.mem_reverse.mp hc)),
      dropWhile_of_head _ (fun c hc => hl c (by rw [← List.head?_reverse]; exact hc)),
      List.reverse_reverse]


theorem getLast?_append_cons (a : Str) (c : Char) (cs : Str) :
    (a ++ c :: cs).getLast? = (c :: cs).getLast? := by
  rw [List.getLast?_append]
  cases h : (c :: cs).getLast? with
  | none => simp at h
  | some x => rfl

theorem takeWhile_of_all {p : Char → Bool} (l : Str) (h : ∀ c ∈ l, p c = true) :
    l.takeWhile p = l := by
  induction l with
  | nil => rfl
  | cons c cs ih =>
    rw [List.takeWhile_cons_of_pos (h c (by simp)),
      ih (fun x hx => h x (List.mem_cons_of_mem _ hx))]

theorem blank_space {p : Pads} (hp : p.Blank) (s : Str)
    (hs : s ∈ [p.nameBefore, p.nameAfter, p.portBefore, p.portAfter, p.dirBefore, p.dirAfter]) :
    ∀ c ∈ s, isSpace c = true :=
  fun c hc => (hp s hs c hc).1

theorem blank_one_line {p : Pads} (hp : p.Blank) (s : Str)
    (hs : s ∈ [p.nameBefore, p.nameAfter, p.portBefore, p.portAfter, p.dirBefore, p.dirAfter]) :
    '\n' ∉ s :=
  fun hc => (hp s hs _ hc).2 rfl

theorem trim_nameLine (t : Rule) (p : Pads) (ht : WellFormed t) (hp : p.Blank) :
    trimSpace (nameLine t p)
      = if t.name = [] then "Rule Name:".toList else "Rule Name: ".toList ++ t.name := by
  have h0 := blank_space hp p.nameBefore (by simp)
  have h1 := blank_space hp p.nameAfter (by simp)
  unfold nameLine
  by_cases hn : t.name = []
  · rw [if_pos hn, hn]
    have e : p.nameBefore ++ ("Rule Name: ".toList ++ []) ++ p.nameAfter
        = p.nameBefore ++ "Rule Name:".toList ++ (' ' :: p.nameAfter) := by
      simp
    rw [e]
    apply trimSpace_pad _ _ _ h0
    · intro c hc
      simp only [List.mem_cons] at hc
      rcases hc with rfl | hc
      · rfl
      · exact h1 c hc
    · intro c hc
      have : c = 'R' := by simpa using hc.symm
      subst this; rfl
    · intro c hc
      have : c = ':' := by simpa using hc.symm
      subst this; rfl
  · rw [if_neg hn]
    apply trimSpace_pad _ _ _ h0 h1
    · intro c hc
      have : c = 'R' := by simpa using hc.symm
      subst this; rfl
    · intro c hc
      obtain ⟨x, xs, hx⟩ := List.exists_cons_of_ne_nil hn
      rw [hx, getLast?_append_cons, ← hx] at hc
      exact ht.name_no_trailing c hc

theorem nameLine_facts (t : Rule) (p : Pads) (ht : WellFormed t) (hp : p.Blank) :
    reName (trimSpace (nameLine t p)) = some t.name ∧
    rePort (trimSpace (nameLine t p)) = none ∧
    reDirection (trimSpace (nameLine t p)) = none := by
  rw [trim_nameLine t p ht hp]
  by_cases hn : t.name = []
  · rw [if_pos hn, hn]
    exact ⟨rfl, rfl, rfl⟩
  · rw [if_neg hn]
    refine ⟨?_, rfl, rfl⟩
    have e : reName ("Rule Name: ".toList ++ t.name)
        = some ((t.name.dropWhile reSpace).takeWhile (fun c => c != '\n')) := rfl
    rw [e, dropWhile_of_head t.name, takeWhile_of_all]
    · intro c hc
      simp only [bne_iff_ne, ne_eq]
      rintro rfl
      exact ht.name_one_line hc
    · intro c hc
      cases hs : reSpace c with
      | false => rfl
      | true =>
        have := reSpace_isSpace c hs
        rw [ht.name_no_leading c hc] at this
        exact absurd this (by simp)

theorem trim_portLine (t : Rule) (p : Pads) (ht : WellFormed t) (hp : p.Blank) :
    trimSpace (portLine t p) = "LocalPort: ".toList ++ t.port := by
  have h0 := blank_space hp p.portBefore (by simp)
  have h1 := blank_space hp p.portAfter (by simp)
  unfold portLine
  apply trimSpace_pad _ _ _ h0 h1
  · intro c hc
    have : c = 'L' := by simpa using hc.symm
    subst this; rfl
  · intro c hc
    obtain ⟨x, xs, hx⟩ := List.exists_cons_of_ne_nil ht.port_nonempty
    rw [hx, getLast?_append_cons, ← hx] at hc
    have hm : c ∈ t.port := List.mem_of_getLast?_eq_some hc
    have hd := ht.port_digits c hm
    rw [isDigit_eq] at hd
    exact reDigit_not_isSpace c hd

theorem portLine_facts (t : Rule) (p : Pads) (ht : WellFormed t) (hp : p.Blank) :
    reName (trimSpace (portLine t p)) = none ∧
    rePort (trimSpace (portLine t p)) = some t.port ∧
    reDirection (trimSpace (portLine t p)) = none := by
  rw [trim_portLine t p ht hp]
  refine ⟨rfl, ?_, rfl⟩
  have hd : ∀ c ∈ t.port, reDigit c = true := fun c hc => by
    rw [← isDigit_eq]; exact ht.port_digits c hc
  have e : rePort ("LocalPort: ".toList ++ t.port)
      = if (t.port.dropWhile reSpace).takeWhile reDigit = [] then none
        else some ((t.port.dropWhile reSpace).takeWhile reDigit) := rfl
  have e2 : t.port.dropWhile reSpace = t.port := by
    apply dropWhile_of_head
    intro c hc
    cases hs : reSpace c with
    | false => rfl
    | true =>
      have h1 := reSpace_isSpace c hs
      rw [reDigit_not_isSpace c (hd c (List.mem_of_mem_head? hc))] at h1
      exact absurd h1 (by simp)
  rw [e, e2, takeWhile_of_all t.port hd, if_neg ht.port_nonempty]

theorem dirLine_facts (t : Rule) (p : Pads) (ht : WellFormed t) (hp : p.Blank) :
    reName (trimSpace (dirLine t p)) = none ∧
    rePort (trimSpace (dirLine t p)) = none ∧
    reDirection (trimSpace (dirLine t p)) = some t.direction := by
  have h0 := blank_space hp p.dirBefore (by simp)
  have h1 := blank_space hp p.dirAfter (by simp)
  have hd := ht.direction_in_out
  have e : trimSpace (dirLine t p) = "Direction: ".toList ++ t.direction := by
    unfold dirLine
    apply trimSpace_pad _ _ _ h0 h1
    · intro c hc
      have : c = 'D' := by simpa using hc.symm
      subst this; rfl
    · intro c hc
      simp only [directionSpellings, List.map_cons, List.map_nil, List.mem_cons,
        List.mem_singleton, List.not_mem_nil, or_false] at hd
      rcases hd with hd | hd | hd | hd | hd | hd | hd | hd | hd | hd | hd | hd <;>
        rw [hd] at hc <;> (have : c = _ := (Option.some.inj hc).symm) <;> subst this <;> rfl
  rw [e]
  simp only [directionSpellings, List.map_cons, List.map_nil, List.mem_cons,
    List.mem_singleton, List.not_mem_nil, or_false] at hd
  rcases hd with hd | hd | hd | hd | hd | hd | hd | hd | hd | hd | hd | hd <;>
    rw [hd] <;> exact ⟨rfl, rfl, rfl⟩


theorem collect_unmatched (js : List Str) (n p : Str) (rest : List Str)
    (h : ∀ j ∈ js, Unmatched j) :
    collect n p (js.map trimSpace ++ rest) = collect n p rest := by
  induction js with
  | nil => rfl
  | cons j js ih =>
    obtain ⟨h1, h2, h3⟩ := h j (by simp)
    simp only [List.map_cons, List.cons_append, collect, h1, h2, h3, Option.getD_none]
    exact ih (fun x hx => h x (List.mem_cons_of_mem _ hx))

theorem collect_block (b : Block) (hb : b.Ok) (hf : b.portFirst = true) (n p : Str)
    (rest : List Str) :
    collect n p (b.lines.map trimSpace ++ rest) = b.rule :: collect [] [] rest := by
  obtain ⟨ht, hp, ho⟩ := hb
  obtain ⟨n1, n2, n3⟩ := nameLine_facts b.rule b.pads ht hp
  obtain ⟨p1, p2, p3⟩ := portLine_facts b.rule b.pads ht hp
  obtain ⟨d1, d2, d3⟩ := dirLine_facts b.rule b.pads ht hp
  have ho1 : ∀ j ∈ b.other1, Unmatched j := fun j hj => (ho j (by simp [hj])).2
  have ho2 : ∀ j ∈ b.other2, Unmatched j := fun j hj => (ho j (by simp [hj])).2
  have ho3 : ∀ j ∈ b.other3, Unmatched j := fun j hj => (ho j (by simp [hj])).2
  simp only [Block.lines, hf, if_true, List.map_cons, List.map_append, List.cons_append,
    List.append_assoc, List.map_nil, List.nil_append]
  rw [collect]
  simp only [n1, n2, n3, Option.getD_some, Option.getD_none]
  rw [collect_unmatched _ _ _ _ ho1, collect]
  simp only [p1, p2, p3, Option.getD_some, Option.getD_none]
  rw [collect_unmatched _ _ _ _ ho2, collect]
  simp only [d1, d2, d3, Option.getD_none]
  rw [collect_unmatched _ _ _ _ ho3]

theorem collect_blocks (bs : List Block) (hb : ∀ b ∈ bs, b.Ok ∧ b.portFirst = true) :
    collect [] [] ((bs.map Block.lines).flatten.map trimSpace) = bs.map Block.rule := by
  induction bs with
  | nil => rfl
  | cons b bs ih =>
    obtain ⟨h1, h2⟩ := hb b (by simp)
    rw [List.map_cons, List.flatten_cons, List.map_append, collect_block b h1 h2,
      ih (fun x hx => hb x (List.mem_cons_of_mem _ hx))]
    rfl

theorem nameLine_one_line (t : Rule) (p : Pads) (ht : WellFormed t) (hp : p.Blank) :
    '\n' ∉ nameLine t p := by
  have h0 := blank_one_line hp p.nameBefore (by simp)
  have h1 := blank_one_line hp p.nameAfter (by simp)
  have h2 := ht.name_one_line
  simp only [nameLine, List.mem_append, not_or]
  exact ⟨⟨h0, by decide, h2⟩, h1⟩

theorem portLine_one_line (t : Rule) (p : Pads) (ht : WellFormed t) (hp : p.Blank) :
    '\n' ∉ portLine t p := by
  have h0 := blank_one_line hp p.portBefore (by simp)
  have h1 := blank_one_line hp p.portAfter (by simp)
  have h2 : '\n' ∉ t.port := fun h => absurd (ht.port_digits _ h) (by decide)
  simp only [portLine, List.mem_append, not_or]
  exact ⟨⟨h0, by decide, h2⟩, h1⟩

theorem dirLine_one_line (t : Rule) (p : Pads) (ht : WellFormed t) (hp : p.Blank) :
    '\n' ∉ dirLine t p := by
  have h0 := blank_one_line hp p.dirBefore (by simp)
  have h1 := blank_one_line hp p.dirAfter (by simp)
  have h2 : '\n' ∉ t.direction := by
    have hd := ht.direction_in_out
    simp only [directionSpellings, List.map_cons, List.map_nil, List.mem_cons,
      List.mem_singleton, List.not_mem_nil, or_false] at hd
    rcases hd with hd | hd | hd | hd | hd | hd | hd | hd | hd | hd | hd | hd <;>
      rw [hd] <;> decide
  simp only [dirLine, List.mem_append, not_or]
  exact ⟨⟨h0, by decide, h2⟩, h1⟩

theorem block_one_line (b : Block) (hb : b.Ok) : ∀ l ∈ b.lines, '\n' ∉ l := by
  obtain ⟨ht, hp, ho⟩ := hb
  have hn := nameLine_one_line b.rule b.pads ht hp
  have hq := portLine_one_line b.rule b.pads ht hp
  have hd := dirLine_one_line b.rule b.pads ht hp
  intro l hl
  simp only [Block.lines, List.mem_cons, List.mem_append] at hl
  rcases hl with rfl | hl | hl | hl
  · exact hn
  · exact (ho l (by simp [hl])).1
  · cases hf : b.portFirst <;> simp only [hf, if_true, if_false, Bool.false_eq_true,
      List.mem_cons, List.mem_append, List.mem_singleton, List.not_mem_nil, or_false] at hl
    · rcases hl with rfl | hl | rfl
      · exact hd
      · exact (ho l (by simp [hl])).1
      · exact hq
    · rcases hl with rfl | hl | rfl
      · exact hq
      · exact (ho l (by simp [hl])).1
      · exact hd
  · exact (ho l (by simp [hl])).1

/-- For blocks of well-formed triples, each beginning with its rule-name line and
containing its local-port line before its direction line among other lines that match no
pattern, the loop extracts exactly the triples of the blocks, in order. -/
theorem scrape_blocks_port_first (bs : List Block)
    (hb : ∀ b ∈ bs, b.Ok ∧ b.portFirst = true) :
    scrape (blocksText bs) = bs.map Block.rule := by
  cases bs with
  | nil => rfl
  | cons b bs =>
    have hne : ((b :: bs).map Block.lines).flatten ≠ [] := by
      simp [Block.lines]
    have h1 : ∀ l ∈ ((b :: bs).map Block.lines).flatten, '\n' ∉ l := by
      intro l hl
      rw [List.mem_flatten] at hl
      obtain ⟨ls, hls, hl⟩ := hl
      rw [List.mem_map] at hls
      obtain ⟨b1, hb1, rfl⟩ := hls
      exact block_one_line b1 (hb b1 hb1).1 l hl
    rw [scrape_eq_collect, blocksText, splitLines_joinLines _ hne h1]
    exact collect_blocks _ hb

theorem wellFormed_web : WellFormed ⟨"Web".toList, "80".toList, "In".toList⟩ :=
  ⟨by decide, fun c hc => by cases hc; rfl, fun c hc => by cases hc; rfl, by decide, by decide,
   by decide⟩

theorem scrape_blocks_port_first_witness :
    (∀ b ∈ [blockPortFirst], b.Ok ∧ b.portFirst = true) ∧
    scrape (blocksText [blockPortFirst]) = [blockPortFirst].map Block.rule :=
  have h : ∀ b ∈ [blockPortFirst], b.Ok ∧ b.portFirst = true := by
    intro b hb
    rw [List.mem_singleton] at hb
    subst hb
    exact ⟨⟨wellFormed_web, by decide, by decide⟩, rfl⟩
  ⟨h, scrape_blocks_port_first [blockPortFirst] h⟩

theorem wellFormed_mail : WellFormed ⟨"Mail".toList, "25".toList, "Out".toList⟩ :=
  ⟨by decide, fun c hc => by cases hc; rfl, fun c hc => by cases hc; rfl, by decide, by decide,
   by decide⟩

/-- C8, evaluated on the code: on two blocks of well-formed triples in which the direction
line precedes the local-port line, the loop emits each record at the direction line,
before the port of the rule is read, and resets: the first rule is reported with the empty
port and the second with the port of the first, the port of the second being dropped; so
the records differ from the triples of the blocks and the claim as stated fails. -/
theorem scrape_direction_first_shifts_port :
    (∀ b ∈ [blockDirFirst, blockMailDirFirst], b.Ok) ∧
    blocksText [blockDirFirst, blockMailDirFirst] =
      ("Rule Name: Web\nDirection: In\nLocalPort: 80\n" ++
        "Rule Name: Mail\nDirection: Out\nLocalPort: 25").toList ∧
    [blockDirFirst, blockMailDirFirst].map Block.rule =
      [⟨"Web".toList, "80".toList, "In".toList⟩, ⟨"Mail".toList, "25".toList, "Out".toList⟩] ∧
    scrape (blocksText [blockDirFirst, blockMailDirFirst]) =
      [⟨"Web".toList, [], "In".toList⟩, ⟨"Mail".toList, "80".toList, "Out".toList⟩] ∧
    scrape (blocksText [blockDirFirst]) = [⟨"Web".toList, [], "In".toList⟩] ∧
    ¬ ∀ bs : List Block, (∀ b ∈ bs, b.Ok) → scrape (blocksText bs) = bs.map Block.rule := by
  have hok : ∀ b ∈ [blockDirFirst, blockMailDirFirst], b.Ok := by
    intro b hb
    simp only [List.mem_cons, List.mem_singleton, List.not_mem_nil, or_false] at hb
    rcases hb with rfl | rfl
    · exact ⟨wellFormed_web, by decide, by decide⟩
    · exact ⟨wellFormed_mail, by decide, by decide⟩
  refine ⟨hok, by decide, by decide, by decide, by decide, ?_⟩
  intro h
  have h1 := h [blockDirFirst, blockMailDirFirst] hok
  revert h1
  decide

/-- C1: for well-formed triples, the text that lists for each triple the lines
`Rule Name: <name>`, `LocalPort: <port>`, `Direction: <direction>` in this order, each
possibly indented or followed by whitespace, makes the loop emit exactly those triples, in
the same order. -/
theorem scrape_listing (ts : List (Rule × Pads))
    (h : ∀ tp ∈ ts, WellFormed tp.1 ∧ tp.2.Blank) :
    scrape (listing ts) = ts.map Prod.fst := by
  have e : (ts.map fun tp => [nameLine tp.1 tp.2, portLine tp.1 tp.2, dirLine tp.1 tp.2])
      = (ts.map fun tp => (⟨tp.1, tp.2, true, [], [], []⟩ : Block)).map Block.lines := by
    rw [List.map_map]
    rfl
  have hb : ∀ b ∈ ts.map (fun tp => (⟨tp.1, tp.2, true, [], [], []⟩ : Block)),
      b.Ok ∧ b.portFirst = true := by
    intro b hb
    rw [List.mem_map] at hb
    obtain ⟨tp, htp, rfl⟩ := hb
    exact ⟨⟨(h tp htp).1, (h tp htp).2, by simp⟩, rfl⟩
  have hr : (ts.map fun tp => (⟨tp.1, tp.2, true, [], [], []⟩ : Block)).map Block.rule
      = ts.map Prod.fst := by
    rw [List.map_map]
    rfl
  cases ts with
  | nil => rfl
  | cons tp ts =>
    have hne : (((tp :: ts).map fun tp => (⟨tp.1, tp.2, true, [], [], []⟩ : Block)).map
        Block.lines).flatten ≠ [] := by
      simp [Block.lines]
    have h1 : ∀ l ∈ (((tp :: ts).map fun tp => (⟨tp.1, tp.2, true, [], [], []⟩ : Block)).map
        Block.lines).flatten, '\n' ∉ l := by
      intro l hl
      rw [List.mem_flatten] at hl
      obtain ⟨ls, hls, hl⟩ := hl
      rw [List.mem_map] at hls
      obtain ⟨b1, hb1, rfl⟩ := hls
      exact block_one_line b1 (hb b1 hb1).1 l hl
    rw [scrape_eq_collect, listing, e, splitLines_joinLines _ hne h1, collect_blocks _ hb, hr]

theorem scrape_listing_witness :
    (∀ tp ∈ sampleTriples, WellFormed tp.1 ∧ tp.2.Blank) ∧
    scrape (listing sampleTriples) = sampleTriples.map Prod.fst :=
  have h : ∀ tp ∈ sampleTriples, WellFormed tp.1 ∧ tp.2.Blank := by
    intro tp htp
    simp only [sampleTriples, List.mem_cons, List.mem_singleton, List.not_mem_nil,
      or_false] at htp
    rcases htp with rfl | rfl
    · exact ⟨⟨by decide, fun c hc => by cases hc; rfl, fun c hc => by cases hc; rfl, by decide,
        by decide, by decide⟩, by decide⟩
    · exact ⟨⟨by decide, fun c hc => by cases hc; rfl, fun c hc => by cases hc; rfl, by decide,
        by decide, by decide⟩, by decide⟩
  ⟨h, scrape_listing sampleTriples h⟩

end Fw
